import Mathlib

/-!
# Verification of the `FileWalker` file-search engine

Shallow embedding of `FileWalker` / `Engine` from
`src/vs/workbench/api/node/extHostWebview.ts` (lines 200-454).

The walker is callback-based Node code running on a single event loop; the
embedding serializes the event-loop interleaving deterministically
(left-to-right over root folders and over directory entries, exactly the
order in which `flow.parallel` starts its tasks).  Filesystem access is a
record of fallible functions (`stat`, `lstat`, `readdir`, `realpath`), and
every filesystem call is logged in an I/O trace so that "performs no further
filesystem I/O" is a statement about the embedding, not an informal gloss.
Recursion into subdirectories is indexed by fuel that is consumed exactly
once per directory descent; adequacy (fuel beyond the number of unvisited
real directories does not change the result) is proved below, which is the
termination argument of the cycle guard.

External collaborator modules (`vs/base/common/glob`,
`vs/base/common/filters`, `vs/base/node/flow`, `path`, `strings`) are not
part of the source under verification; the spec treats pattern matching as
an abstract capability, so glob and fuzzy matching are abstract function
parameters of the configuration, and the small path/string helpers and the
`flow.parallel` error-collection contract are modelled from the spec.
-/

set_option linter.unusedVariables false

namespace FileSearch

/-- Result of `fs.Stats`: the two classification bits the walker reads. -/
structure LStat where
  isDirectory : Bool
  isSymbolicLink : Bool
deriving DecidableEq, Repr

/-- A logged filesystem operation (the walker's only I/O). -/
inductive FSOp where
  | stat (path : String)
  | lstat (path : String)
  | readdir (path : String)
  | realpath (path : String)
deriving DecidableEq, Repr

/-- Which call site delivered a result to the `onResult` callback. -/
inductive EmitSource where
  | absoluteFastPath
  | relativeFastPath
  | matched
deriving DecidableEq, Repr

/-- One `onResult` invocation: the absolute path delivered, tagged with the
emitting call site. -/
structure Emit where
  path : String
  source : EmitSource
deriving DecidableEq, Repr

/-- Errors flowing through the walker's callbacks. -/
abbrev Err := String

/-- The filesystem model.  `realDirs` is a finite superset of every path
the walker's cycle guard can mark as visited: the two laws say that
`realpath` answers and non-symlink directory paths land in it (note that a
non-symlink directory path reached beneath a symlinked ancestor is marked
under its unresolved path, so `realDirs` is not in general the canonical
set).  The laws are what makes the visited-set cycle guard a genuine
termination argument. -/
structure FS where
  stat : String → Option LStat
  lstat : String → Option LStat
  readdir : String → Option (List String)
  realpath : String → Option String
  realDirs : List String
  realpath_mem : ∀ p r, realpath p = some r → r ∈ realDirs
  dir_mem : ∀ p l, lstat p = some l → l.isDirectory = true →
    l.isSymbolicLink = false → p ∈ realDirs

/-- Modelled from the spec: POSIX `paths.isAbsolute` (module `path` is an
external collaborator, not under `src/`). -/
def isAbsolutePath (s : String) : Bool :=
  match s.toList with
  | '/' :: _ => true
  | _ => false

/-- Modelled from the spec: POSIX `paths.join` restricted to the clean-path
joins the walker performs (no dot-segment normalization). -/
def pathJoin (a b : String) : String :=
  if a = "" then b
  else if a.toList.getLast? = some '/' then a ++ b
  else a ++ "/" ++ b

/-- Modelled from the spec: `paths.basename` (segment after the last `/`). -/
def baseName (s : String) : String :=
  ⟨(s.toList.reverse.takeWhile (fun c => c ≠ '/')).reverse⟩

/-- Modelled from the spec: `strings.trim(s, '/')` — strip every leading and
trailing `/` (module `strings` is an external collaborator). -/
def trimSlashes (s : String) : String :=
  ⟨((s.toList.dropWhile (fun c => c = '/')).reverse.dropWhile
      (fun c => c = '/')).reverse⟩

/-- Modelled from the spec: `strings.replaceAll(s, '\\', '/')` for the
single-character needle the walker uses. -/
def backslashToSlash (s : String) : String :=
  ⟨s.toList.map (fun c => if c = '\\' then '/' else c)⟩

/-- JavaScript truthiness of an optional string (`undefined` and `""` are
falsy). -/
def strTruthy : Option String → Bool
  | none => false
  | some s => s ≠ ""

/-- JavaScript truthiness of an optional number (`undefined` and `0` are
falsy). -/
def natTruthy : Option Nat → Bool
  | none => false
  | some n => n ≠ 0

/-- The raw `IRawSearch` configuration handed to the `FileWalker`
constructor.  `excludeMatch` stands for `glob.match(config.excludePattern,
·, ·)`, `includeMatch` for the optional `config.includePattern` matcher, and
`fuzzyMatch p path` for `!!filters.matchesFuzzy(p, path, true) &&
res.length > 0` — the binary pass/fail contract the spec requires from the
PatternMatcher collaborator. -/
structure RawConfig where
  filePattern : Option String
  excludeMatch : String → List String → Bool
  includeMatch : Option (String → Bool)
  maxResults : Option Nat
  fuzzyMatch : String → String → Bool

/-- The `FileWalker` fields after the constructor ran: `configFilePattern`
is the untouched `config.filePattern`, `filePattern` is `this.filePattern`
after the forward-slash normalization, `searchInPath` is set when the
pattern contains a path separator. -/
structure Walker where
  configFilePattern : Option String
  filePattern : Option String
  searchInPath : Bool
  excludeMatch : String → List String → Bool
  includeMatch : Option (String → Bool)
  maxResults : Option Nat
  fuzzyMatch : String → String → Bool

/-- The `FileWalker` constructor: normalizes the file pattern to forward
slashes when it contains a separator (POSIX `paths.sep = '/'`), and maps a
falsy `config.maxResults` to `null`. -/
def mkWalker (c : RawConfig) : Walker :=
  let normalize := strTruthy c.filePattern
      && (c.filePattern.getD "").toList.any (fun ch => ch = '/')
  { configFilePattern := c.filePattern
    filePattern :=
      if normalize then c.filePattern.map backslashToSlash else c.filePattern
    searchInPath := normalize
    excludeMatch := c.excludeMatch
    includeMatch := c.includeMatch
    maxResults := if c.maxResults = some 0 then none else c.maxResults
    fuzzyMatch := c.fuzzyMatch }

/-- The mutable walk state owned by one `FileWalker` instance, plus the
observation channels of the embedding: the list of `onResult` deliveries and
the filesystem I/O trace. -/
structure WalkState where
  walkedPaths : List String
  resultCount : Nat
  isLimitHit : Bool
  isCanceled : Bool
  results : List Emit
  trace : List FSOp
deriving DecidableEq, Repr

/-- Append one filesystem operation to the I/O trace. -/
def logOp (s : WalkState) (op : FSOp) : WalkState :=
  { s with trace := s.trace ++ [op] }

/-- `FileWalker.isFilePatternMatch`: with a truthy pattern the relative path
must pass the fuzzy match; no pattern means every file passes. -/
def isFilePatternMatch (w : Walker) (name path : String) : Bool :=
  if strTruthy w.filePattern then w.fuzzyMatch (w.filePattern.getD "") path
  else true

/-- `FileWalker.matchFile`: on a file-pattern and include-pattern pass,
increment `resultCount`, set `isLimitHit` once the count exceeds a truthy
`maxResults`, and deliver the result only while the limit is not hit. -/
def matchFile (w : Walker) (s : WalkState)
    (basename absolutePath relativePath : String) : WalkState :=
  if isFilePatternMatch w basename relativePath
      && (match w.includeMatch with
          | none => true
          | some im => im relativePath) then
    let rc := s.resultCount + 1
    let lh := s.isLimitHit ||
      (match w.maxResults with
       | some m => m ≠ 0 && decide (m < rc)
       | none => false)
    if lh then { s with resultCount := rc, isLimitHit := lh }
    else { s with resultCount := rc, isLimitHit := lh,
                  results := s.results ++ [⟨absolutePath, .matched⟩] }
  else s

/-- `FileWalker.realPathIfNeeded`: symlinks are resolved through
`fs.realpath` (one logged I/O), other paths are returned unchanged. -/
def realPathIfNeeded (fs : FS) (path : String) (l : LStat) (s : WalkState) :
    Option String × WalkState :=
  if l.isSymbolicLink then (fs.realpath path, logOp s (.realpath path))
  else (some path, s)

/-- The continuation `doWalk` passes to itself when it descends into a
subdirectory (abstracted so the per-entry stages are plain definitions). -/
abbrev Recur := String → String → List String → WalkState → WalkState × Option Err

/-- Stage of the per-entry task after `extfs.readdir(currentPath, …)`
returned inside the directory branch: on error, cancellation or limit-hit
the branch unwinds, otherwise `doWalk` recurses into the children. -/
def dirAfterReaddir (fs : FS) (w : Walker) (recur : Recur)
    (current relPath : String) (cres : Option (List String))
    (s : WalkState) : WalkState × Option Err :=
  match cres with
  | none => (s, none)
  | some children =>
    if s.isCanceled || s.isLimitHit then (s, none)
    else recur current relPath children s

/-- Stage of the per-entry task after `realPathIfNeeded` returned: on error,
cancellation or limit-hit skip; if the real path was already walked skip
(cycle guard); otherwise remember it as walked and read the directory. -/
def dirAfterRealpath (fs : FS) (w : Walker) (recur : Recur)
    (current relPath : String) (rres : Option String) (s : WalkState) :
    WalkState × Option Err :=
  match rres with
  | none => (s, none)
  | some r =>
    if s.isCanceled || s.isLimitHit then (s, none)
    else if r ∈ s.walkedPaths then (s, none)
    else
      let s1 := { s with walkedPaths := r :: s.walkedPaths }
      let s2 := logOp s1 (.readdir current)
      dirAfterReaddir fs w recur current relPath (fs.readdir current) s2

/-- Stage of the per-entry task after `fs.lstat` returned: on error,
cancellation or limit-hit skip; directories go through the real-path cycle
guard, files are checked against the raw relative-path-equals-pattern skip
and then `matchFile`. -/
def walkEntryAfterLstat (fs : FS) (w : Walker) (recur : Recur)
    (file current relPath : String) (lres : Option LStat) (s : WalkState) :
    WalkState × Option Err :=
  match lres with
  | none => (s, none)
  | some l =>
    if s.isCanceled || s.isLimitHit then (s, none)
    else if l.isDirectory then
      let rp := realPathIfNeeded fs current l s
      dirAfterRealpath fs w recur current relPath rp.1 rp.2
    else
      if w.filePattern = some relPath then (s, none)
      else (matchFile w s file current relPath, none)

/-- The per-entry task of `FileWalker.doWalk` (the function handed to
`flow.parallel`): cancellation/limit check, sibling-aware exclude check
(empty sibling list when the entry name is the literal configured file
pattern), then `fs.lstat` and the post-lstat stage. -/
def walkEntry (fs : FS) (w : Walker) (recur : Recur)
    (dir relParent : String) (file : String) (siblings : List String)
    (s : WalkState) : WalkState × Option Err :=
  if s.isCanceled || s.isLimitHit then (s, none)
  else
    let sibs := if w.configFilePattern = some file then [] else siblings
    let relPath := trimSlashes (relParent ++ "/" ++ file)
    if w.excludeMatch relPath sibs then (s, none)
    else
      let current := pathJoin dir file
      let s1 := logOp s (.lstat current)
      walkEntryAfterLstat fs w recur file current relPath
        (fs.lstat current) s1

/-- Modelled from the spec: `flow.parallel` over the entries of one
directory, serialized left-to-right (the event-loop order in which the tasks
are started); collects one `Option Err` per entry. -/
def walkEntries (fs : FS) (w : Walker) (recur : Recur)
    (dir relParent : String) (siblings : List String) :
    List String → WalkState → WalkState × List (Option Err)
  | [], s => (s, [])
  | f :: rest, s =>
    let p := walkEntry fs w recur dir relParent f siblings s
    let q := walkEntries fs w recur dir relParent siblings rest p.1
    (q.1, p.2 :: q.2)

/-- `FileWalker.doWalk`, fuel-indexed: one unit of fuel is consumed per
directory descent (out-of-fuel behaves like an already-settled branch; the
adequacy theorem below shows any fuel above the number of unvisited real
directories gives the same result).  The collected per-entry errors are
coalesced and the first one surfaced, as in the source. -/
def doWalk (fs : FS) (w : Walker) :
    Nat → String → String → List String → WalkState → WalkState × Option Err
  | 0, _, _, _, s => (s, none)
  | fuel + 1, dir, relParent, files, s =>
    let q := walkEntries fs w (doWalk fs w fuel) dir relParent files files s
    (q.1, (q.2.filterMap id).head?)

/-- `FileWalker.checkFilePatternAbsoluteMatch`: a truthy absolute file
pattern is `fs.stat`-ed; it matches when it exists and is not a
directory. -/
def checkFilePatternAbsoluteMatch (fs : FS) (w : Walker) (s : WalkState) :
    Bool × WalkState :=
  if !strTruthy w.filePattern
      || !isAbsolutePath (w.filePattern.getD "") then (false, s)
  else
    let fp := w.filePattern.getD ""
    let s1 := logOp s (.stat fp)
    match fs.stat fp with
    | none => (false, s1)
    | some st => (!st.isDirectory, s1)

/-- `FileWalker.checkFilePatternRelativeMatch`: for a truthy, relative,
separator-containing pattern, `root/filePattern` is `fs.stat`-ed and
returned when it exists and is not a directory. -/
def checkFilePatternRelativeMatch (fs : FS) (w : Walker) (basePath : String)
    (s : WalkState) : Option String × WalkState :=
  if !strTruthy w.filePattern
      || isAbsolutePath (w.filePattern.getD "")
      || !w.searchInPath then (none, s)
  else
    let abs := pathJoin basePath (w.filePattern.getD "")
    let s1 := logOp s (.stat abs)
    match fs.stat abs with
    | none => (none, s1)
    | some st => (if st.isDirectory then none else some abs, s1)

/-- Stage of the per-root task after `checkFilePatternRelativeMatch`
returned: on cancellation or limit-hit the root settles; a relative
fast-path match is delivered directly (bypassing `matchFile`), then the
root's subtree is walked. -/
def walkRootAfterRelCheck (fs : FS) (w : Walker) (fuel : Nat)
    (root : String) (files : List String) (m : Option String)
    (s : WalkState) : WalkState × Option Err :=
  if s.isCanceled || s.isLimitHit then (s, none)
  else
    let s1 := match m with
      | some p => { s with results := s.results ++ [⟨p, .relativeFastPath⟩] }
      | none => s
    doWalk fs w fuel root "" files s1

/-- Stage of the per-root task after the root's `extfs.readdir` returned: an
OS error, cancellation or limit-hit settles the root silently, otherwise the
relative fast path is checked before the subtree walk. -/
def walkRootAfterReaddir (fs : FS) (w : Walker) (fuel : Nat) (root : String)
    (dres : Option (List String)) (s : WalkState) : WalkState × Option Err :=
  match dres with
  | none => (s, none)
  | some files =>
    if s.isCanceled || s.isLimitHit then (s, none)
    else
      let mq := checkFilePatternRelativeMatch fs w root s
      walkRootAfterRelCheck fs w fuel root files mq.1 mq.2

/-- The per-root task of `FileWalker.walk`: read the root's entries (the
first I/O of the branch) and continue. -/
def walkRoot (fs : FS) (w : Walker) (fuel : Nat) (root : String)
    (s : WalkState) : WalkState × Option Err :=
  let s1 := logOp s (.readdir root)
  walkRootAfterReaddir fs w fuel root (fs.readdir root) s1

/-- Modelled from the spec: `flow.parallel` over the root folders,
serialized left-to-right; collects one `Option Err` per root. -/
def walkRoots (fs : FS) (w : Walker) (fuel : Nat) :
    List String → WalkState → WalkState × List (Option Err)
  | [], s => (s, [])
  | r :: rest, s =>
    let p := walkRoot fs w fuel r s
    let q := walkRoots fs w fuel rest p.1
    (q.1, p.2 :: q.2)

/-- The extra-files pass of `FileWalker.walk`: each extra file is skipped
when the exclude pattern matches it (no sibling list), otherwise it goes
through `matchFile`. -/
def walkExtras (w : Walker) : List String → WalkState → WalkState
  | [], s => s
  | p :: rest, s =>
    let s1 := if w.excludeMatch p [] then s
              else matchFile w s (baseName p) p p
    walkExtras w rest s1

/-- What the final `done` callback of `FileWalker.walk` carries, together
with the final state of the embedding. -/
structure WalkDone where
  state : WalkState
  error : Option Err
  limitHit : Bool
deriving DecidableEq, Repr

/-- `FileWalker.walk`: absolute-literal fast path, cancellation check,
extra-files pass, then the parallel per-root traversal; the final callback
carries `err ? err[0] : null` from the collected root errors and the final
limit-hit flag. -/
def walk (fs : FS) (w : Walker) (fuel : Nat) (rootFolders extraFiles : List String)
    (s : WalkState) : WalkDone :=
  let eq1 := checkFilePatternAbsoluteMatch fs w s
  let ex := eq1.1
  let s1 := eq1.2
  if s1.isCanceled then ⟨s1, none, s1.isLimitHit⟩
  else if ex then
    let s2 := { s1 with
      results := s1.results ++ [⟨w.filePattern.getD "", .absoluteFastPath⟩] }
    ⟨s2, none, s2.isLimitHit⟩
  else
    let s3 := walkExtras w extraFiles s1
    let rq := walkRoots fs w fuel rootFolders s3
    ⟨rq.1, if rq.2.any (·.isSome) then (rq.2.head?.getD none) else none,
      rq.1.isLimitHit⟩

/-- `Engine.search` delegates to the walker's `walk` (the `onProgress` hook
is ignored by the walker). -/
def engineSearch (fs : FS) (config : RawConfig) (fuel : Nat)
    (rootFolders extraFiles : List String) (s : WalkState) : WalkDone :=
  walk fs (mkWalker config) fuel rootFolders extraFiles s

/-- The fresh walk state built at the start of a search. -/
def initState : WalkState :=
  { walkedPaths := [], resultCount := 0, isLimitHit := false,
    isCanceled := false, results := [], trace := [] }

@[simp] theorem initState_walkedPaths : initState.walkedPaths = [] := rfl

@[simp] theorem initState_resultCount : initState.resultCount = 0 := rfl

@[simp] theorem initState_isLimitHit : initState.isLimitHit = false := rfl

@[simp] theorem initState_isCanceled : initState.isCanceled = false := rfl

@[simp] theorem initState_results : initState.results = [] := rfl

@[simp] theorem initState_trace : initState.trace = [] := rfl

/-! ## Building concrete filesystems -/

/-- Look a path up in an association list (first match wins). -/
def lookupS {α : Type} (l : List (String × α)) (p : String) : Option α :=
  match l.find? (fun q => q.1 = p) with
  | some q => some q.2
  | none => none

theorem lookupS_mem {α : Type} {l : List (String × α)} {p : String} {v : α}
    (h : lookupS l p = some v) : ∃ q ∈ l, q.1 = p ∧ q.2 = v := by
  unfold lookupS at h
  cases hf : l.find? (fun q => q.1 = p) with
  | none => rw [hf] at h; exact absurd h (by simp)
  | some q =>
    rw [hf] at h
    refine ⟨q, List.mem_of_find?_eq_some hf, ?_, by simpa using h⟩
    have := List.find?_some hf
    simpa using this

/-- Build a concrete finite filesystem from association lists; the two side
conditions are decidable on concrete data. -/
def mkFS (statL lstatL : List (String × LStat))
    (readdirL : List (String × List String))
    (realpathL : List (String × String)) (realDirs : List String)
    (h1 : ∀ q ∈ realpathL, q.2 ∈ realDirs)
    (h2 : ∀ q ∈ lstatL, q.2.isDirectory = true →
      q.2.isSymbolicLink = false → q.1 ∈ realDirs) : FS where
  stat := lookupS statL
  lstat := lookupS lstatL
  readdir := lookupS readdirL
  realpath := lookupS realpathL
  realDirs := realDirs
  realpath_mem := fun p r h => by
    obtain ⟨q, hq, _, hv⟩ := lookupS_mem h
    exact hv ▸ h1 q hq
  dir_mem := fun p l h hd hl => by
    obtain ⟨q, hq, hp, hv⟩ := lookupS_mem h
    exact hp ▸ h2 q hq (hv ▸ hd) (hv ▸ hl)

/-! ## The preservation framework

Every state change the walker performs is one of four primitive effects:
logging an I/O operation, marking a fresh real path as walked, a fast-path
emission (tagged `absoluteFastPath` / `relativeFastPath`), or a `matchFile`
transition.  A predicate preserved by those four effects is an invariant of
the whole walk. -/

structure PresHyp (w : Walker) (P : WalkState → Prop) : Prop where
  log : ∀ s op, P s → P (logOp s op)
  mark : ∀ s r, r ∉ s.walkedPaths → P s →
    P { s with walkedPaths := r :: s.walkedPaths }
  matchf : ∀ s b a rel, P s → P (matchFile w s b a rel)
  emit : ∀ s p src, src ≠ EmitSource.matched → P s →
    P { s with results := s.results ++ [⟨p, src⟩] }

section Pres

variable {fs : FS} {w : Walker} {P : WalkState → Prop} {recur : Recur}

theorem pres_realPathIfNeeded (h : PresHyp w P) (path : String) (l : LStat)
    {s : WalkState} (hs : P s) : P (realPathIfNeeded fs path l s).2 := by
  unfold realPathIfNeeded
  split
  · exact h.log _ _ hs
  · exact hs

theorem pres_dirAfterReaddir (h : PresHyp w P)
    (hrec : ∀ d r fi s, P s → P (recur d r fi s).1)
    (current relPath : String) (cres : Option (List String)) {s : WalkState}
    (hs : P s) : P (dirAfterReaddir fs w recur current relPath cres s).1 := by
  unfold dirAfterReaddir
  cases cres with
  | none => exact hs
  | some children =>
    dsimp only
    split
    · exact hs
    · exact hrec _ _ _ _ hs

theorem pres_dirAfterRealpath (h : PresHyp w P)
    (hrec : ∀ d r fi s, P s → P (recur d r fi s).1)
    (current relPath : String) (rres : Option String) {s : WalkState}
    (hs : P s) : P (dirAfterRealpath fs w recur current relPath rres s).1 := by
  unfold dirAfterRealpath
  cases rres with
  | none => exact hs
  | some r =>
    dsimp only
    split
    · exact hs
    · split
      · exact hs
      · next hmem =>
          exact pres_dirAfterReaddir h hrec _ _ _
            (h.log _ _ (h.mark _ _ hmem hs))

theorem pres_walkEntryAfterLstat (h : PresHyp w P)
    (hrec : ∀ d r fi s, P s → P (recur d r fi s).1)
    (file current relPath : String) (lres : Option LStat) {s : WalkState}
    (hs : P s) :
    P (walkEntryAfterLstat fs w recur file current relPath lres s).1 := by
  unfold walkEntryAfterLstat
  cases lres with
  | none => exact hs
  | some l =>
    dsimp only
    split
    · exact hs
    · split
      · exact pres_dirAfterRealpath h hrec _ _ _
          (pres_realPathIfNeeded h _ _ hs)
      · split
        · exact hs
        · exact h.matchf _ _ _ _ hs

theorem pres_walkEntry (h : PresHyp w P)
    (hrec : ∀ d r fi s, P s → P (recur d r fi s).1)
    (dir relParent file : String) (siblings : List String) {s : WalkState}
    (hs : P s) :
    P (walkEntry fs w recur dir relParent file siblings s).1 := by
  unfold walkEntry
  split
  · exact hs
  · dsimp only
    split <;> split
    · exact hs
    · exact pres_walkEntryAfterLstat h hrec _ _ _ _ (h.log _ _ hs)
    · exact hs
    · exact pres_walkEntryAfterLstat h hrec _ _ _ _ (h.log _ _ hs)

theorem pres_walkEntries (h : PresHyp w P)
    (hrec : ∀ d r fi s, P s → P (recur d r fi s).1)
    (dir relParent : String) (siblings : List String) :
    ∀ (pending : List String) {s : WalkState}, P s →
      P (walkEntries fs w recur dir relParent siblings pending s).1
  | [], _, hs => hs
  | f :: rest, s, hs => by
    unfold walkEntries
    exact pres_walkEntries h hrec dir relParent siblings rest
      (pres_walkEntry h hrec _ _ _ _ hs)

theorem pres_doWalk (h : PresHyp w P) :
    ∀ (fuel : Nat) (dir relParent : String) (files : List String)
      {s : WalkState}, P s → P (doWalk fs w fuel dir relParent files s).1
  | 0, _, _, _, _, hs => hs
  | fuel + 1, dir, relParent, files, s, hs => by
    unfold doWalk
    exact pres_walkEntries h
      (fun d r fi t ht => pres_doWalk h fuel d r fi ht) _ _ _ _ hs

theorem pres_checkFilePatternAbsoluteMatch (h : PresHyp w P) {s : WalkState}
    (hs : P s) : P (checkFilePatternAbsoluteMatch fs w s).2 := by
  unfold checkFilePatternAbsoluteMatch
  split
  · exact hs
  · dsimp only
    split
    · exact h.log _ _ hs
    · exact h.log _ _ hs

theorem pres_checkFilePatternRelativeMatch (h : PresHyp w P)
    (basePath : String) {s : WalkState} (hs : P s) :
    P (checkFilePatternRelativeMatch fs w basePath s).2 := by
  unfold checkFilePatternRelativeMatch
  split
  · exact hs
  · dsimp only
    split
    · exact h.log _ _ hs
    · exact h.log _ _ hs

theorem pres_walkRootAfterRelCheck (h : PresHyp w P) (fuel : Nat)
    (root : String) (files : List String) (m : Option String) {s : WalkState}
    (hs : P s) :
    P (walkRootAfterRelCheck fs w fuel root files m s).1 := by
  unfold walkRootAfterRelCheck
  split
  · exact hs
  · cases m with
    | some p =>
        exact pres_doWalk h fuel _ _ _ (h.emit _ _ _ (by decide) hs)
    | none => exact pres_doWalk h fuel _ _ _ hs

theorem pres_walkRootAfterReaddir (h : PresHyp w P) (fuel : Nat)
    (root : String) (dres : Option (List String)) {s : WalkState}
    (hs : P s) : P (walkRootAfterReaddir fs w fuel root dres s).1 := by
  unfold walkRootAfterReaddir
  cases dres with
  | none => exact hs
  | some files =>
    dsimp only
    split
    · exact hs
    · exact pres_walkRootAfterRelCheck h fuel _ _ _
        (pres_checkFilePatternRelativeMatch h _ hs)

theorem pres_walkRoot (h : PresHyp w P) (fuel : Nat) (root : String)
    {s : WalkState} (hs : P s) : P (walkRoot fs w fuel root s).1 := by
  unfold walkRoot
  exact pres_walkRootAfterReaddir h fuel _ _ (h.log _ _ hs)

theorem pres_walkRoots (h : PresHyp w P) (fuel : Nat) :
    ∀ (roots : List String) {s : WalkState}, P s →
      P (walkRoots fs w fuel roots s).1
  | [], _, hs => hs
  | r :: rest, s, hs => by
    unfold walkRoots
    exact pres_walkRoots h fuel rest (pres_walkRoot h fuel r hs)

theorem pres_walkExtras (h : PresHyp w P) :
    ∀ (extras : List String) {s : WalkState}, P s →
      P (walkExtras w extras s)
  | [], _, hs => hs
  | p :: rest, s, hs => by
    unfold walkExtras
    refine pres_walkExtras h rest ?_
    split
    · exact hs
    · exact h.matchf _ _ _ _ hs

theorem pres_walk (h : PresHyp w P) (fuel : Nat)
    (roots extras : List String) {s : WalkState} (hs : P s) :
    P (walk fs w fuel roots extras s).state := by
  unfold walk
  dsimp only
  split
  · exact pres_checkFilePatternAbsoluteMatch h hs
  · split
    · exact h.emit _ _ _ (by decide)
        (pres_checkFilePatternAbsoluteMatch h hs)
    · exact pres_walkRoots h fuel _
        (pres_walkExtras h _ (pres_checkFilePatternAbsoluteMatch h hs))

end Pres

/-! ## Small component facts -/

section Components

variable {fs : FS} {w : Walker} {s : WalkState}

@[simp] theorem logOp_walkedPaths (s : WalkState) (op : FSOp) :
    (logOp s op).walkedPaths = s.walkedPaths := rfl

@[simp] theorem logOp_results (s : WalkState) (op : FSOp) :
    (logOp s op).results = s.results := rfl

@[simp] theorem logOp_resultCount (s : WalkState) (op : FSOp) :
    (logOp s op).resultCount = s.resultCount := rfl

@[simp] theorem logOp_isCanceled (s : WalkState) (op : FSOp) :
    (logOp s op).isCanceled = s.isCanceled := rfl

@[simp] theorem logOp_isLimitHit (s : WalkState) (op : FSOp) :
    (logOp s op).isLimitHit = s.isLimitHit := rfl

theorem matchFile_walkedPaths (b a rel : String) :
    (matchFile w s b a rel).walkedPaths = s.walkedPaths := by
  unfold matchFile
  split
  · dsimp only
    split <;> rfl
  · rfl

theorem matchFile_trace (b a rel : String) :
    (matchFile w s b a rel).trace = s.trace := by
  unfold matchFile
  split
  · dsimp only
    split <;> rfl
  · rfl

theorem matchFile_isCanceled (b a rel : String) :
    (matchFile w s b a rel).isCanceled = s.isCanceled := by
  unfold matchFile
  split
  · dsimp only
    split <;> rfl
  · rfl

theorem matchFile_limitHit_mono (b a rel : String)
    (h : s.isLimitHit = true) : (matchFile w s b a rel).isLimitHit = true := by
  unfold matchFile
  split
  · dsimp only
    split <;> simp [h]
  · exact h

theorem matchFile_resultCount_le (b a rel : String) :
    s.resultCount ≤ (matchFile w s b a rel).resultCount := by
  unfold matchFile
  split
  · dsimp only
    split <;> exact Nat.le_succ _
  · exact Nat.le_refl _

theorem realPathIfNeeded_walkedPaths (path : String) (l : LStat) :
    ((realPathIfNeeded fs path l s).2).walkedPaths = s.walkedPaths := by
  unfold realPathIfNeeded
  split <;> rfl

/-- The first component of `realPathIfNeeded` names a real directory when
the lstat classified the path as a directory. -/
theorem realPathIfNeeded_mem (path : String) (l : LStat)
    (hl : fs.lstat path = some l) (hd : l.isDirectory = true) :
    ∀ r, (realPathIfNeeded fs path l s).1 = some r → r ∈ fs.realDirs := by
  intro r hr
  unfold realPathIfNeeded at hr
  split at hr
  · exact fs.realpath_mem path r (by simpa using hr)
  · next hnl =>
      have : path = r := by simpa using hr
      subst this
      exact fs.dir_mem path l hl hd (by simpa using hnl)

end Components

/-! ## The unvisited-real-directories measure -/

/-- Number of real directories not yet in the visited set: the quantity the
cycle guard strictly decreases at every directory descent. -/
def unvisited (fs : FS) (walked : List String) : Nat :=
  (fs.realDirs.filter (fun p => decide (p ∉ walked))).length

theorem length_filter_mono {α : Type} (l : List α) (p q : α → Bool)
    (h : ∀ a, p a = true → q a = true) :
    (l.filter p).length ≤ (l.filter q).length := by
  induction l with
  | nil => simp
  | cons a t ih =>
    simp only [List.filter]
    cases hp : p a with
    | true => rw [h a hp]; simpa using Nat.succ_le_succ ih
    | false => cases hq : q a <;> simp <;> omega

theorem unvisited_cons_le (fs : FS) (r : String) (walked : List String) :
    unvisited fs (r :: walked) ≤ unvisited fs walked := by
  apply length_filter_mono
  intro a ha
  simp only [decide_eq_true_eq, List.mem_cons, not_or] at *
  exact ha.2

theorem length_filter_notmem_lt (l : List String) (r : String)
    (walked : List String) (hr : r ∈ l) (hw : r ∉ walked) :
    (l.filter (fun p => decide (p ∉ r :: walked))).length <
      (l.filter (fun p => decide (p ∉ walked))).length := by
  induction l with
  | nil => cases hr
  | cons a t ih =>
    simp only [List.filter]
    by_cases ha : a = r
    · subst ha
      have h1 : (decide (a ∉ a :: walked)) = false := by simp
      have h2 : (decide (a ∉ walked)) = true := by simpa using hw
      rw [h1, h2]
      refine Nat.lt_succ_of_le ?_
      apply length_filter_mono
      intro x hx
      simp only [decide_eq_true_eq, List.mem_cons, not_or] at *
      exact hx.2
    · have hrt : r ∈ t := by
        rcases List.mem_cons.mp hr with h | h
        · exact absurd h.symm ha
        · exact h
      have heq : (decide (a ∉ r :: walked)) = (decide (a ∉ walked)) := by
        simp only [List.mem_cons, not_or]
        by_cases haw : a ∈ walked <;> simp [haw, Ne.symm, ha]
      rw [heq]
      cases hd : decide (a ∉ walked) with
      | true => simpa using Nat.succ_lt_succ (ih hrt)
      | false => simpa using ih hrt

theorem unvisited_cons_lt (fs : FS) (r : String) (walked : List String)
    (hr : r ∈ fs.realDirs) (hw : r ∉ walked) :
    unvisited fs (r :: walked) < unvisited fs walked :=
  length_filter_notmem_lt fs.realDirs r walked hr hw

/-- Invariants that only look at the visited set transfer to the walk. -/
theorem presHyp_walked (w : Walker) (P' : List String → Prop)
    (hm : ∀ wk r, r ∉ wk → P' wk → P' (r :: wk)) :
    PresHyp w (fun s => P' s.walkedPaths) where
  log := fun _ _ h => h
  mark := fun _ r hr h => hm _ r hr h
  matchf := fun s b a rel h => by rw [matchFile_walkedPaths]; exact h
  emit := fun _ _ _ _ h => h

/-- The unvisited count never grows along the walk. -/
theorem presHyp_unvisited_le (fs : FS) (w : Walker) (K : Nat) :
    PresHyp w (fun s => unvisited fs s.walkedPaths ≤ K) :=
  presHyp_walked w (fun wk => unvisited fs wk ≤ K)
    (fun wk r _ h => le_trans (unvisited_cons_le fs r wk) h)

/-! ## Fuel adequacy

Any two fuel values above the number of unvisited real directories give the
same walk: the fuel is an artifact of the embedding, and this is precisely
the termination argument of the visited-set cycle guard (each directory
descent first consumes one fresh member of the finite `realDirs`). -/

section Congr

variable {fs : FS} {w : Walker} {recur₁ recur₂ : Recur} {K : Nat}

theorem dirAfterReaddir_congr
    (hagree : ∀ d rp fi t, unvisited fs t.walkedPaths < K →
      recur₁ d rp fi t = recur₂ d rp fi t)
    (current relPath : String) (cres : Option (List String)) {s : WalkState}
    (hμ : unvisited fs s.walkedPaths < K) :
    dirAfterReaddir fs w recur₁ current relPath cres s =
      dirAfterReaddir fs w recur₂ current relPath cres s := by
  unfold dirAfterReaddir
  cases cres with
  | none => rfl
  | some children =>
    dsimp only
    split
    · rfl
    · exact hagree _ _ _ _ hμ

theorem dirAfterRealpath_congr
    (hagree : ∀ d rp fi t, unvisited fs t.walkedPaths < K →
      recur₁ d rp fi t = recur₂ d rp fi t)
    (current relPath : String) (rres : Option String) {s : WalkState}
    (hμ : unvisited fs s.walkedPaths ≤ K)
    (hmem : ∀ r, rres = some r → r ∈ fs.realDirs) :
    dirAfterRealpath fs w recur₁ current relPath rres s =
      dirAfterRealpath fs w recur₂ current relPath rres s := by
  unfold dirAfterRealpath
  cases rres with
  | none => rfl
  | some r =>
    dsimp only
    split
    · rfl
    · split
      · rfl
      · next hmemw =>
          apply dirAfterReaddir_congr hagree
          have hlt := unvisited_cons_lt fs r s.walkedPaths (hmem r rfl) hmemw
          exact lt_of_lt_of_le hlt hμ

theorem walkEntryAfterLstat_congr
    (hagree : ∀ d rp fi t, unvisited fs t.walkedPaths < K →
      recur₁ d rp fi t = recur₂ d rp fi t)
    (file current relPath : String) (lres : Option LStat) {s : WalkState}
    (hμ : unvisited fs s.walkedPaths ≤ K) (hl : fs.lstat current = lres) :
    walkEntryAfterLstat fs w recur₁ file current relPath lres s =
      walkEntryAfterLstat fs w recur₂ file current relPath lres s := by
  unfold walkEntryAfterLstat
  cases lres with
  | none => rfl
  | some l =>
    dsimp only
    split
    · rfl
    · split
      · next hd =>
          apply dirAfterRealpath_congr hagree
          · show unvisited fs ((realPathIfNeeded fs current l s).2).walkedPaths ≤ K
            rw [realPathIfNeeded_walkedPaths]
            exact hμ
          · exact fun r hr => realPathIfNeeded_mem current l hl hd r hr
      · split <;> rfl

theorem walkEntry_congr
    (hagree : ∀ d rp fi t, unvisited fs t.walkedPaths < K →
      recur₁ d rp fi t = recur₂ d rp fi t)
    (dir relParent file : String) (siblings : List String) {s : WalkState}
    (hμ : unvisited fs s.walkedPaths ≤ K) :
    walkEntry fs w recur₁ dir relParent file siblings s =
      walkEntry fs w recur₂ dir relParent file siblings s := by
  unfold walkEntry
  split
  · rfl
  · dsimp only
    split <;> split
    · rfl
    · exact walkEntryAfterLstat_congr hagree _ _ _ _ hμ rfl
    · rfl
    · exact walkEntryAfterLstat_congr hagree _ _ _ _ hμ rfl

theorem walkEntries_congr
    (hagree : ∀ d rp fi t, unvisited fs t.walkedPaths < K →
      recur₁ d rp fi t = recur₂ d rp fi t)
    (hpres : ∀ d rp fi t,
      unvisited fs ((recur₁ d rp fi t).1).walkedPaths ≤
        unvisited fs t.walkedPaths)
    (dir relParent : String) (siblings : List String) :
    ∀ (pending : List String) {s : WalkState},
      unvisited fs s.walkedPaths ≤ K →
      walkEntries fs w recur₁ dir relParent siblings pending s =
        walkEntries fs w recur₂ dir relParent siblings pending s
  | [], _, _ => rfl
  | f :: rest, s, hμ => by
    have h1 := @walkEntry_congr fs w recur₁ recur₂ K hagree
      dir relParent f siblings s hμ
    have hs1 : unvisited fs
        ((walkEntry fs w recur₁ dir relParent f siblings s).1).walkedPaths ≤ K :=
      pres_walkEntry (presHyp_unvisited_le fs w K)
        (fun d rp fi t ht => le_trans (hpres d rp fi t) ht) _ _ _ _ hμ
    have h2 := walkEntries_congr hagree hpres dir relParent siblings rest hs1
    unfold walkEntries
    dsimp only
    rw [h2, h1]

theorem doWalk_fuel_congr :
    ∀ (fuel₁ fuel₂ : Nat) (dir relParent : String) (files : List String)
      {s : WalkState},
      unvisited fs s.walkedPaths < fuel₁ →
      unvisited fs s.walkedPaths < fuel₂ →
      doWalk fs w fuel₁ dir relParent files s =
        doWalk fs w fuel₂ dir relParent files s
  | 0, _, _, _, _, _, h1, _ => absurd h1 (Nat.not_lt_zero _)
  | _ + 1, 0, _, _, _, _, _, h2 => absurd h2 (Nat.not_lt_zero _)
  | fuel₁ + 1, fuel₂ + 1, dir, relParent, files, s, h1, h2 => by
    have hw : walkEntries fs w (doWalk fs w fuel₁) dir relParent files files s =
        walkEntries fs w (doWalk fs w fuel₂) dir relParent files files s := by
      apply walkEntries_congr (K := unvisited fs s.walkedPaths)
      · intro d rp fi t ht
        exact doWalk_fuel_congr fuel₁ fuel₂ d rp fi
          (lt_of_lt_of_le ht (Nat.lt_succ_iff.mp h1))
          (lt_of_lt_of_le ht (Nat.lt_succ_iff.mp h2))
      · intro d rp fi t
        exact pres_doWalk (presHyp_unvisited_le fs w
          (unvisited fs t.walkedPaths)) fuel₁ d rp fi (le_refl _)
      · exact le_refl _
    unfold doWalk
    dsimp only
    rw [hw]

theorem walkRootAfterRelCheck_fuel_congr (fuel₁ fuel₂ : Nat) (root : String)
    (files : List String) (m : Option String) {s : WalkState}
    (h1 : unvisited fs s.walkedPaths < fuel₁)
    (h2 : unvisited fs s.walkedPaths < fuel₂) :
    walkRootAfterRelCheck fs w fuel₁ root files m s =
      walkRootAfterRelCheck fs w fuel₂ root files m s := by
  unfold walkRootAfterRelCheck
  split
  · rfl
  · cases m with
    | some p => exact doWalk_fuel_congr fuel₁ fuel₂ _ _ _ h1 h2
    | none => exact doWalk_fuel_congr fuel₁ fuel₂ _ _ _ h1 h2

theorem walkRoot_fuel_congr (fuel₁ fuel₂ : Nat) (root : String)
    {s : WalkState}
    (h1 : unvisited fs s.walkedPaths < fuel₁)
    (h2 : unvisited fs s.walkedPaths < fuel₂) :
    walkRoot fs w fuel₁ root s = walkRoot fs w fuel₂ root s := by
  unfold walkRoot walkRootAfterReaddir
  cases fs.readdir root with
  | none => rfl
  | some files =>
    dsimp only
    split
    · rfl
    · apply walkRootAfterRelCheck_fuel_congr
      · show unvisited fs
          ((checkFilePatternRelativeMatch fs w root (logOp s (.readdir root))).2).walkedPaths < fuel₁
        exact lt_of_le_of_lt
          (pres_checkFilePatternRelativeMatch
            (presHyp_unvisited_le fs w (unvisited fs s.walkedPaths)) root
            (le_refl _)) h1
      · show unvisited fs
          ((checkFilePatternRelativeMatch fs w root (logOp s (.readdir root))).2).walkedPaths < fuel₂
        exact lt_of_le_of_lt
          (pres_checkFilePatternRelativeMatch
            (presHyp_unvisited_le fs w (unvisited fs s.walkedPaths)) root
            (le_refl _)) h2

theorem walkRoots_fuel_congr (fuel₁ fuel₂ : Nat) :
    ∀ (roots : List String) {s : WalkState},
      unvisited fs s.walkedPaths < fuel₁ →
      unvisited fs s.walkedPaths < fuel₂ →
      walkRoots fs w fuel₁ roots s = walkRoots fs w fuel₂ roots s
  | [], _, _, _ => rfl
  | r :: rest, s, h1, h2 => by
    have hr := walkRoot_fuel_congr (w := w) fuel₁ fuel₂ r h1 h2
    have hs1 : unvisited fs ((walkRoot fs w fuel₁ r s).1).walkedPaths ≤
        unvisited fs s.walkedPaths :=
      pres_walkRoot (presHyp_unvisited_le fs w (unvisited fs s.walkedPaths))
        fuel₁ r (le_refl _)
    have hrest := walkRoots_fuel_congr fuel₁ fuel₂ rest
      (lt_of_le_of_lt hs1 h1) (lt_of_le_of_lt hs1 h2)
    unfold walkRoots
    dsimp only
    rw [hrest, hr]

/-- Fuel adequacy for the whole search: beyond the unvisited-real-directory
count the walk result does not depend on the fuel, i.e. the traversal
terminates even in the presence of symlink cycles. -/
theorem walk_fuel_congr (fuel₁ fuel₂ : Nat) (roots extras : List String)
    {s : WalkState}
    (h1 : unvisited fs s.walkedPaths < fuel₁)
    (h2 : unvisited fs s.walkedPaths < fuel₂) :
    walk fs w fuel₁ roots extras s = walk fs w fuel₂ roots extras s := by
  unfold walk
  dsimp only
  split
  · rfl
  · split
    · rfl
    · have hle : unvisited fs
          ((walkExtras w extras
            ((checkFilePatternAbsoluteMatch fs w s).2)).walkedPaths) ≤
          unvisited fs s.walkedPaths :=
        pres_walkExtras (presHyp_unvisited_le fs w (unvisited fs s.walkedPaths))
          extras
          (pres_checkFilePatternAbsoluteMatch
            (presHyp_unvisited_le fs w (unvisited fs s.walkedPaths))
            (le_refl _))
      rw [walkRoots_fuel_congr fuel₁ fuel₂ roots
        (lt_of_le_of_lt hle h1) (lt_of_le_of_lt hle h2)]

end Congr

/-! ## Error propagation

Every per-entry failure path in `doWalk` converts the failure into a silent
skip (`clb(null)`), so no branch ever settles with a non-null error; the
first-error machinery of `flow.parallel` therefore always surfaces "no
error". -/

section ErrNone

variable {fs : FS} {w : Walker} {recur : Recur}

theorem dirAfterReaddir_err
    (hrec : ∀ d rp fi t, (recur d rp fi t).2 = none)
    (current relPath : String) (cres : Option (List String)) (s : WalkState) :
    (dirAfterReaddir fs w recur current relPath cres s).2 = none := by
  unfold dirAfterReaddir
  cases cres with
  | none => rfl
  | some children =>
    dsimp only
    split
    · rfl
    · exact hrec _ _ _ _

theorem dirAfterRealpath_err
    (hrec : ∀ d rp fi t, (recur d rp fi t).2 = none)
    (current relPath : String) (rres : Option String) (s : WalkState) :
    (dirAfterRealpath fs w recur current relPath rres s).2 = none := by
  unfold dirAfterRealpath
  cases rres with
  | none => rfl
  | some r =>
    dsimp only
    split
    · rfl
    · split
      · rfl
      · exact dirAfterReaddir_err hrec _ _ _ _

theorem walkEntryAfterLstat_err
    (hrec : ∀ d rp fi t, (recur d rp fi t).2 = none)
    (file current relPath : String) (lres : Option LStat) (s : WalkState) :
    (walkEntryAfterLstat fs w recur file current relPath lres s).2 = none := by
  unfold walkEntryAfterLstat
  cases lres with
  | none => rfl
  | some l =>
    dsimp only
    split
    · rfl
    · split
      · exact dirAfterRealpath_err hrec _ _ _ _
      · split <;> rfl

theorem walkEntry_err
    (hrec : ∀ d rp fi t, (recur d rp fi t).2 = none)
    (dir relParent file : String) (siblings : List String) (s : WalkState) :
    (walkEntry fs w recur dir relParent file siblings s).2 = none := by
  unfold walkEntry
  split
  · rfl
  · dsimp only
    split <;> split
    · rfl
    · exact walkEntryAfterLstat_err hrec _ _ _ _ _
    · rfl
    · exact walkEntryAfterLstat_err hrec _ _ _ _ _

theorem walkEntries_err
    (hrec : ∀ d rp fi t, (recur d rp fi t).2 = none)
    (dir relParent : String) (siblings : List String) :
    ∀ (pending : List String) (s : WalkState),
      ∀ e ∈ (walkEntries fs w recur dir relParent siblings pending s).2,
        e = none
  | [], _, _, h => absurd h (List.not_mem_nil _)
  | f :: rest, s, e, he => by
    unfold walkEntries at he
    dsimp only at he
    rcases List.mem_cons.mp he with h | h
    · rw [h]; exact walkEntry_err hrec _ _ _ _ _
    · exact walkEntries_err hrec dir relParent siblings rest _ e h

theorem doWalk_err :
    ∀ (fuel : Nat) (dir relParent : String) (files : List String)
      (s : WalkState), (doWalk fs w fuel dir relParent files s).2 = none
  | 0, _, _, _, _ => rfl
  | fuel + 1, dir, relParent, files, s => by
    unfold doWalk
    dsimp only
    have hall := @walkEntries_err fs w (doWalk fs w fuel)
      (fun d rp fi t => doWalk_err fuel d rp fi t) dir relParent files files s
    have hnil : List.filterMap id
        (walkEntries fs w (doWalk fs w fuel) dir relParent files files s).2
          = [] := by
      rw [List.filterMap_eq_nil_iff]
      intro e he
      rw [hall e he]
      rfl
    rw [hnil]
    rfl

theorem walkRoot_err (fuel : Nat) (root : String) (s : WalkState) :
    (walkRoot fs w fuel root s).2 = none := by
  unfold walkRoot walkRootAfterReaddir
  cases fs.readdir root with
  | none => rfl
  | some files =>
    dsimp only
    split
    · rfl
    · unfold walkRootAfterRelCheck
      split
      · rfl
      · cases (checkFilePatternRelativeMatch fs w root
          (logOp s (.readdir root))).1 <;> exact doWalk_err fuel _ _ _ _

theorem walkRoots_err (fuel : Nat) :
    ∀ (roots : List String) (s : WalkState),
      ∀ e ∈ (walkRoots fs w fuel roots s).2, e = none
  | [], _, _, h => absurd h (List.not_mem_nil _)
  | r :: rest, s, e, he => by
    unfold walkRoots at he
    dsimp only at he
    rcases List.mem_cons.mp he with h | h
    · rw [h]; exact walkRoot_err fuel r _
    · exact walkRoots_err fuel rest _ e h

/-- The final callback of `walk` never carries an error. -/
theorem walk_err (fuel : Nat) (roots extras : List String) (s : WalkState) :
    (walk fs w fuel roots extras s).error = none := by
  unfold walk
  dsimp only
  split
  · rfl
  · split
    · rfl
    · have hall := @walkRoots_err fs w fuel roots
        (walkExtras w extras ((checkFilePatternAbsoluteMatch fs w s).2))
      have : (walkRoots fs w fuel roots
          (walkExtras w extras ((checkFilePatternAbsoluteMatch fs w s).2))).2.any
            (·.isSome) = false := by
        rw [List.any_eq_false]
        intro e he
        rw [hall e he]
        simp
      rw [this]
      rfl

end ErrNone

/-! ## The reference enumeration (spec side of the refinement)

For searches with no file pattern and no include/exclude patterns the spec
promises that the walk delivers exactly the regular files reachable under
the root, skipping subtrees whose real directory was already visited.  The
following definitions are the spec side of that refinement. -/

/-- Modelled from the spec (data model: `visitedRealPaths` is a set of
canonicalized symlink-resolved paths; algorithm step 5: "resolve the real
(symlink-dereferenced) path" of every directory entry): reference treatment
of a single directory entry — classify it with a link-aware stat; for a
directory resolve its real path through `realpath` (unconditionally, unlike
the code, which resolves only entries that are themselves symlinks), skip
it if the canonical path was already visited, otherwise mark the canonical
path and descend; for a regular file emit its absolute path. -/
def specEntry (fs : FS)
    (recur : String → List String → List String → List String × List String)
    (dir e : String) (visited : List String) : List String × List String :=
  let p := pathJoin dir e
  match fs.lstat p with
  | none => ([], visited)
  | some l =>
    if l.isDirectory then
      match fs.realpath p with
      | none => ([], visited)
      | some r =>
        if r ∈ visited then ([], visited)
        else
          match fs.readdir p with
          | none => ([], r :: visited)
          | some children => recur p children (r :: visited)
    else ([p], visited)

/-- Modelled from the spec: reference left-to-right fold over the entries of
one directory, threading the visited set and concatenating emissions. -/
def specEntries (fs : FS)
    (recur : String → List String → List String → List String × List String)
    (dir : String) :
    List String → List String → List String × List String
  | [], visited => ([], visited)
  | e :: rest, visited =>
    let p := specEntry fs recur dir e visited
    let q := specEntries fs recur dir rest p.2
    (p.1 ++ q.1, q.2)

/-- Modelled from the spec: the reference recursive directory enumeration
(fuel-indexed exactly like the walker's `doWalk`). -/
def specWalkDir (fs : FS) :
    Nat → String → List String → List String → List String × List String
  | 0, _, _, visited => ([], visited)
  | fuel + 1, dir, entries, visited =>
    specEntries fs (specWalkDir fs fuel) dir entries visited

/-- Modelled from the spec: the regular files reachable under a root,
excluding files under an already-visited real directory. -/
def specReachableFiles (fs : FS) (fuel : Nat) (root : String) : List String :=
  match fs.readdir root with
  | none => []
  | some entries => (specWalkDir fs fuel root entries []).1

/-- The configuration class of the claim: no file pattern, no include
pattern, an exclude pattern that matches nothing, and no result limit. -/
def plainConfig (w : Walker) : Prop :=
  w.filePattern = none ∧ w.configFilePattern = none ∧
    (∀ p sib, w.excludeMatch p sib = false) ∧
    w.includeMatch = none ∧ w.maxResults = none

/-- No-aliasing condition: every non-symlink directory path is already
canonical.  This is exactly where the code diverges from the spec —
`realPathIfNeeded` resolves only entries that are themselves symlinks, so a
real directory reached beneath a symlinked ancestor is keyed by its
unresolved path; under this condition the two visited-set disciplines
agree. -/
def FSCanon (fs : FS) : Prop :=
  ∀ p l, fs.lstat p = some l → l.isDirectory = true →
    l.isSymbolicLink = false → fs.realpath p = some p

/-- Discharge `FSCanon` for a concrete filesystem by checking its finite
lstat table. -/
theorem mkFS_canon (statL lstatL : List (String × LStat))
    (readdirL : List (String × List String))
    (realpathL : List (String × String)) (realDirs : List String)
    (h1 : ∀ q ∈ realpathL, q.2 ∈ realDirs)
    (h2 : ∀ q ∈ lstatL, q.2.isDirectory = true →
      q.2.isSymbolicLink = false → q.1 ∈ realDirs)
    (hcl : ∀ q ∈ lstatL, q.2.isDirectory = true →
      q.2.isSymbolicLink = false → lookupS realpathL q.1 = some q.1) :
    FSCanon (mkFS statL lstatL readdirL realpathL realDirs h1 h2) := by
  intro p l h hd hs
  obtain ⟨q, hq, hkey, hval⟩ := lookupS_mem h
  have := hcl q hq (hval ▸ hd) (hval ▸ hs)
  rw [hkey] at this
  exact this

section PlainSim

variable {fs : FS} {w : Walker} {recur : Recur}

/-- Under a plain configuration, `matchFile` always passes and delivers. -/
theorem plain_matchFile (hw : plainConfig w) (b a rel : String)
    {s : WalkState} (hl : s.isLimitHit = false) :
    matchFile w s b a rel =
      { s with resultCount := s.resultCount + 1,
               results := s.results ++ [⟨a, .matched⟩] } := by
  obtain ⟨hfp, -, -, hinc, hmax⟩ := hw
  unfold matchFile isFilePatternMatch
  rw [hfp, hinc, hmax]
  cases s
  simp_all [strTruthy]

/-- The simulation relation between the walker's directory recursion and the
reference recursion: equal emissions (as `matched` results), equal visited
sets, and stable flags. -/
def PlainSim (fs : FS) (recur : Recur)
    (sr : String → List String → List String → List String × List String) :
    Prop :=
  ∀ d rp children s, s.isCanceled = false → s.isLimitHit = false →
    ((recur d rp children s).1.results =
      s.results ++ ((sr d children s.walkedPaths).1.map
        (fun p => Emit.mk p .matched))) ∧
    ((recur d rp children s).1.walkedPaths =
      (sr d children s.walkedPaths).2) ∧
    (recur d rp children s).1.isCanceled = false ∧
    (recur d rp children s).1.isLimitHit = false

theorem plain_walkEntry (hw : plainConfig w) (hcanon : FSCanon fs)
    {sr : String → List String → List String → List String × List String}
    (hsim : PlainSim fs recur sr)
    (dir relParent f : String) (siblings : List String) {s : WalkState}
    (hc : s.isCanceled = false) (hl : s.isLimitHit = false) :
    ((walkEntry fs w recur dir relParent f siblings s).1.results =
      s.results ++ ((specEntry fs sr dir f s.walkedPaths).1.map
        (fun p => Emit.mk p .matched))) ∧
    ((walkEntry fs w recur dir relParent f siblings s).1.walkedPaths =
      (specEntry fs sr dir f s.walkedPaths).2) ∧
    (walkEntry fs w recur dir relParent f siblings s).1.isCanceled = false ∧
    (walkEntry fs w recur dir relParent f siblings s).1.isLimitHit = false := by
  obtain ⟨hfp, hcfp, hexc, hinc, hmax⟩ := hw
  have hflags : ∀ t : WalkState, t.isCanceled = false → t.isLimitHit = false →
      (t.isCanceled || t.isLimitHit) = false := by
    intro t h1 h2
    rw [h1, h2]
    rfl
  unfold walkEntry specEntry
  simp only [hflags s hc hl, hexc, Bool.false_eq_true, if_false]
  unfold walkEntryAfterLstat
  cases hls : fs.lstat (pathJoin dir f) with
  | none => exact ⟨by simp, rfl, hc, hl⟩
  | some l =>
    simp only [logOp_isCanceled, logOp_isLimitHit, hflags s hc hl,
      Bool.false_eq_true, if_false]
    cases hd : l.isDirectory with
    | false =>
      simp only [Bool.false_eq_true, if_false, hfp, reduceCtorEq]
      rw [plain_matchFile ⟨hfp, hcfp, hexc, hinc, hmax⟩ f (pathJoin dir f)
        (trimSlashes (relParent ++ "/" ++ f))
        (s := logOp s (FSOp.lstat (pathJoin dir f))) hl]
      exact ⟨by simp, rfl, hc, hl⟩
    | true =>
      simp only [if_true]
      unfold realPathIfNeeded dirAfterRealpath
      cases hsl : l.isSymbolicLink with
      | true =>
        simp only [if_true]
        cases hrp : fs.realpath (pathJoin dir f) with
        | none => exact ⟨by simp, rfl, hc, hl⟩
        | some r =>
          simp only [logOp_isCanceled, logOp_isLimitHit, logOp_walkedPaths,
            hflags s hc hl, Bool.false_eq_true, if_false]
          split
          · next hmem => exact ⟨by simp, rfl, hc, hl⟩
          · next hmem =>
            unfold dirAfterReaddir
            cases hrd : fs.readdir (pathJoin dir f) with
            | none => exact ⟨by simp, rfl, hc, hl⟩
            | some children =>
              simp only [logOp_isCanceled, logOp_isLimitHit,
                hflags _ hc hl, Bool.false_eq_true, if_false]
              exact hsim _ _ children _ hc hl
      | false =>
        rw [hcanon (pathJoin dir f) l hls hd hsl]
        simp only [Bool.false_eq_true, if_false]
        simp only [logOp_isCanceled, logOp_isLimitHit, logOp_walkedPaths,
          hflags s hc hl, Bool.false_eq_true, if_false]
        split
        · next hmem => exact ⟨by simp, rfl, hc, hl⟩
        · next hmem =>
          unfold dirAfterReaddir
          cases hrd : fs.readdir (pathJoin dir f) with
          | none => exact ⟨by simp, rfl, hc, hl⟩
          | some children =>
            simp only [logOp_isCanceled, logOp_isLimitHit,
              hflags _ hc hl, Bool.false_eq_true, if_false]
            exact hsim _ _ children _ hc hl

theorem plain_walkEntries (hw : plainConfig w) (hcanon : FSCanon fs)
    {sr : String → List String → List String → List String × List String}
    (hsim : PlainSim fs recur sr) (dir relParent : String)
    (siblings : List String) :
    ∀ (pending : List String) {s : WalkState},
      s.isCanceled = false → s.isLimitHit = false →
      ((walkEntries fs w recur dir relParent siblings pending s).1.results =
        s.results ++ ((specEntries fs sr dir pending s.walkedPaths).1.map
          (fun p => Emit.mk p .matched))) ∧
      ((walkEntries fs w recur dir relParent siblings pending s).1.walkedPaths
        = (specEntries fs sr dir pending s.walkedPaths).2) ∧
      (walkEntries fs w recur dir relParent siblings pending s).1.isCanceled
        = false ∧
      (walkEntries fs w recur dir relParent siblings pending s).1.isLimitHit
        = false
  | [], s, hc, hl => by
    refine ⟨by simp [walkEntries, specEntries], ?_, hc, hl⟩
    simp [walkEntries, specEntries]
  | f :: rest, s, hc, hl => by
    obtain ⟨h1r, h1w, h1c, h1l⟩ := plain_walkEntry hw hcanon hsim dir
      relParent f siblings hc hl
    obtain ⟨h2r, h2w, h2c, h2l⟩ := plain_walkEntries hw hcanon hsim
      dir relParent siblings rest h1c h1l
    unfold walkEntries specEntries
    dsimp only
    refine ⟨?_, ?_, h2c, h2l⟩
    · rw [h2r, h1r, h1w]
      simp [List.append_assoc]
    · rw [h2w, h1w]

theorem plain_doWalk (hw : plainConfig w) (hcanon : FSCanon fs) :
    ∀ (fuel : Nat),
      PlainSim fs (doWalk fs w fuel) (specWalkDir fs fuel)
  | 0 => by
    intro d rp children s hc hl
    exact ⟨by simp [doWalk, specWalkDir], by simp [doWalk, specWalkDir],
      hc, hl⟩
  | fuel + 1 => by
    intro d rp children s hc hl
    obtain ⟨h1, h2, h3, h4⟩ := plain_walkEntries hw hcanon
      (plain_doWalk hw hcanon fuel) d rp children children hc hl
    exact ⟨h1, h2, h3, h4⟩

/-- Under a plain configuration, a single-root search with no extra files
delivers exactly the reference enumeration (each path tagged as a
`matchFile` delivery). -/
theorem plain_walk_singleRoot (hw : plainConfig w) (hcanon : FSCanon fs)
    (fuel : Nat) (root : String) :
    (walk fs w fuel [root] [] initState).state.results =
      (specReachableFiles fs fuel root).map
        (fun p => Emit.mk p .matched) := by
  obtain ⟨hfp, hcfp, hexc, hinc, hmax⟩ := hw
  unfold walk checkFilePatternAbsoluteMatch
  rw [hfp]
  simp only [strTruthy, Bool.not_false, Bool.true_or, if_true,
    initState_isCanceled, initState_isLimitHit, Bool.false_eq_true, if_false]
  unfold walkExtras walkRoots walkRoot walkRootAfterReaddir
  dsimp only
  unfold specReachableFiles
  cases hrd : fs.readdir root with
  | none => simp [walkRoots, logOp]
  | some files =>
    simp only [logOp_isCanceled, logOp_isLimitHit, initState_isCanceled,
      initState_isLimitHit, Bool.or_self, Bool.false_eq_true, if_false]
    unfold checkFilePatternRelativeMatch
    rw [hfp]
    simp only [strTruthy, Bool.not_false, Bool.true_or, if_true]
    unfold walkRootAfterRelCheck
    simp only [logOp_isCanceled, logOp_isLimitHit, initState_isCanceled,
      initState_isLimitHit, Bool.or_self, Bool.false_eq_true, if_false]
    obtain ⟨h1, h2, h3, h4⟩ := plain_doWalk ⟨hfp, hcfp, hexc, hinc, hmax⟩
      hcanon fuel root "" files (logOp initState (.readdir root)) rfl rfl
    unfold walkRoots
    dsimp only
    rw [h1]
    simp [logOp]

/-- Matched-source deliveries (the emissions that went through
`matchFile`). -/
def matchedCount (l : List Emit) : Nat :=
  (l.filter (fun e => decide (e.source = EmitSource.matched))).length

@[simp] theorem matchedCount_nil : matchedCount [] = 0 := rfl

theorem matchedCount_append (l₁ l₂ : List Emit) :
    matchedCount (l₁ ++ l₂) = matchedCount l₁ + matchedCount l₂ := by
  unfold matchedCount
  rw [List.filter_append, List.length_append]

theorem matchedCount_append_nonmatched (l : List Emit) (p : String)
    (src : EmitSource) (h : src ≠ .matched) :
    matchedCount (l ++ [⟨p, src⟩]) = matchedCount l := by
  rw [matchedCount_append]
  have h0 : matchedCount [Emit.mk p src] = 0 := by
    unfold matchedCount
    simp [h]
  rw [h0]
  rfl

end PlainSim

section Invariants

variable {fs : FS} {w : Walker}

theorem matchedCount_append_matched (l : List Emit) (p : String) :
    matchedCount (l ++ [⟨p, .matched⟩]) = matchedCount l + 1 := by
  rw [matchedCount_append]
  rfl

/-- The final `done` callback reports exactly the final `isLimitHit`
flag. -/
theorem walk_limitHit_eq (fuel : Nat) (roots extras : List String)
    (s : WalkState) :
    (walk fs w fuel roots extras s).limitHit =
      (walk fs w fuel roots extras s).state.isLimitHit := by
  unfold walk
  dsimp only
  split
  · rfl
  · split <;> rfl

/-- `resultCount` is monotone along the walk. -/
theorem presHyp_resultCount_ge (w : Walker) (n : Nat) :
    PresHyp w (fun s => n ≤ s.resultCount) where
  log _ _ h := h
  mark _ _ _ h := h
  matchf s b a rel h := le_trans h (matchFile_resultCount_le b a rel)
  emit _ _ _ _ h := h

/-- With no result limit, `resultCount` counts exactly the `matchFile`
deliveries and the limit flag stays down. -/
theorem presHyp_count_eq (w : Walker) (hmax : w.maxResults = none) :
    PresHyp w (fun s => s.isLimitHit = false ∧
      s.resultCount = matchedCount s.results) where
  log _ _ h := h
  mark _ _ _ h := h
  emit s p src hsrc h := by
    obtain ⟨h1, h2⟩ := h
    refine ⟨h1, ?_⟩
    show s.resultCount = matchedCount (s.results ++ [⟨p, src⟩])
    rw [matchedCount_append_nonmatched _ _ _ hsrc]
    exact h2
  matchf s b a rel h := by
    obtain ⟨h1, h2⟩ := h
    unfold matchFile
    split
    · dsimp only
      rw [hmax]
      dsimp only
      rw [h1]
      simp only [Bool.or_false, Bool.false_eq_true, if_false]
      refine ⟨by simp, ?_⟩
      show s.resultCount + 1 = matchedCount (s.results ++ [⟨a, .matched⟩])
      rw [matchedCount_append_matched, h2]
    · exact ⟨h1, h2⟩

/-- The cap invariant behind the `maxResults` claim: `matchFile` deliveries
never exceed the cap, and while the limit flag is down the candidate count
is within the cap. -/
theorem presHyp_cap (w : Walker) (N : Nat) (hN : w.maxResults = some N)
    (hNpos : 0 < N) :
    PresHyp w (fun s => matchedCount s.results ≤ s.resultCount ∧
      matchedCount s.results ≤ N ∧
      (s.isLimitHit = false → s.resultCount ≤ N)) where
  log _ _ h := h
  mark _ _ _ h := h
  emit s p src hsrc h := by
    obtain ⟨h1, h2, h3⟩ := h
    refine ⟨?_, ?_, h3⟩
    · show matchedCount (s.results ++ [⟨p, src⟩]) ≤ s.resultCount
      rw [matchedCount_append_nonmatched _ _ _ hsrc]
      exact h1
    · show matchedCount (s.results ++ [⟨p, src⟩]) ≤ N
      rw [matchedCount_append_nonmatched _ _ _ hsrc]
      exact h2
  matchf s b a rel h := by
    obtain ⟨h1, h2, h3⟩ := h
    unfold matchFile
    split
    · dsimp only
      rw [hN]
      dsimp only
      split
      · next hlh =>
          refine ⟨le_trans h1 (Nat.le_succ _), h2, ?_⟩
          intro hfalse
          have hfalse' : (s.isLimitHit ||
              (decide (N ≠ 0) && decide (N < s.resultCount + 1))) = false :=
            hfalse
          rw [hfalse'] at hlh
          exact Bool.noConfusion hlh
      · next hlh =>
          rw [Bool.not_eq_true] at hlh
          rcases Bool.or_eq_false_iff.mp hlh with ⟨hlh1, hlh2⟩
          have hle : s.resultCount + 1 ≤ N := by
            rcases Bool.and_eq_false_iff.mp hlh2 with hz | hz
            · exfalso
              have : ¬(N ≠ 0) := by simpa using hz
              omega
            · have : ¬(N < s.resultCount + 1) := by simpa using hz
              omega
          refine ⟨?_, ?_, fun _ => hle⟩
          · show matchedCount (s.results ++ [⟨a, .matched⟩]) ≤
              s.resultCount + 1
            rw [matchedCount_append_matched]
            omega
          · show matchedCount (s.results ++ [⟨a, .matched⟩]) ≤ N
            rw [matchedCount_append_matched]
            omega
    · exact ⟨h1, h2, h3⟩

end Invariants

/-! ## The absolute-literal fast path -/

/-- When the file pattern is a truthy absolute path that `fs.stat` reports
as an existing non-directory, `walk` delivers exactly that path (tagged as
the absolute fast path), performs exactly one filesystem operation, leaves
`resultCount` and `isLimitHit` untouched, and finishes immediately — for any
`maxResults` and any include matcher. -/
theorem walk_absolute_fast_path (fs : FS) (w : Walker) (fuel : Nat)
    (roots extras : List String) (s : WalkState) (fp : String) (st : LStat)
    (hfp : w.filePattern = some fp) (hne : fp ≠ "")
    (habs : isAbsolutePath fp = true)
    (hst : fs.stat fp = some st) (hdir : st.isDirectory = false)
    (hc : s.isCanceled = false) :
    walk fs w fuel roots extras s =
      ⟨{ s with trace := s.trace ++ [.stat fp],
                results := s.results ++ [⟨fp, .absoluteFastPath⟩] },
        none, s.isLimitHit⟩ := by
  have hcond : (!strTruthy (some fp)
      || !isAbsolutePath ((some fp).getD "")) = false := by
    simp [strTruthy, hne, habs]
  unfold walk checkFilePatternAbsoluteMatch
  rw [hfp, hcond]
  simp only [Bool.false_eq_true, if_false, Option.getD_some]
  rw [hst]
  simp only [hdir, Bool.not_false, logOp_isCanceled, hc, Bool.false_eq_true,
    if_false, if_true]
  rfl

/-! ## Concrete instances for witnesses and counterexamples -/

/-- Link-aware stat results used by the concrete filesystems. -/
def dirStat : LStat := ⟨true, false⟩

def linkStat : LStat := ⟨true, true⟩

def fileStat : LStat := ⟨false, false⟩

/-- A walker with no patterns and no limit. -/
def wPlain : Walker :=
  mkWalker ⟨none, fun _ _ => false, none, none, fun _ _ => true⟩

theorem wPlain_plain : plainConfig wPlain :=
  ⟨rfl, rfl, fun _ _ => rfl, rfl, rfl⟩

/-- Root `/r` holding a file `f` and a symlink `loop` back to `/r` itself (a
directory containing a symlink to its ancestor). -/
def fsCycle : FS := mkFS
  []
  [("/r/f", fileStat), ("/r/loop", linkStat),
   ("/r/loop/f", fileStat), ("/r/loop/loop", linkStat)]
  [("/r", ["f", "loop"]), ("/r/loop", ["f", "loop"])]
  [("/r/loop", "/r"), ("/r/loop/loop", "/r")]
  ["/r"]
  (by decide) (by decide)

/-- Root `/r` with exactly one regular file `f`. -/
def fsOneFile : FS := mkFS
  []
  [("/r/f", fileStat)]
  [("/r", ["f"])]
  []
  []
  (by decide) (by decide)

/-- Root `/r` holding a real subdirectory `sub` (with file `g`) and a
symlink `loop` back to `/r`: the real directory `/r/sub` is reachable both
directly and as `/r/loop/sub` beneath the symlinked ancestor, and `lstat`
reports the aliased path as a plain (non-symlink) directory. -/
def fsAlias : FS := mkFS
  []
  [("/r/sub", dirStat), ("/r/loop", linkStat), ("/r/sub/g", fileStat),
   ("/r/loop/sub", dirStat), ("/r/loop/loop", linkStat),
   ("/r/loop/sub/g", fileStat)]
  [("/r", ["sub", "loop"]), ("/r/sub", ["g"]), ("/r/loop", ["sub", "loop"]),
   ("/r/loop/sub", ["g"])]
  [("/r/loop", "/r"), ("/r/loop/loop", "/r"), ("/r/loop/sub", "/r/sub"),
   ("/r/sub", "/r/sub")]
  ["/r", "/r/sub", "/r/loop/sub"]
  (by decide) (by decide)

theorem fsCycle_canon : FSCanon fsCycle :=
  mkFS_canon _ _ _ _ _ _ _ (by decide)

/-- Root `/r` with two regular files and an existing relative fast-path
target `/r/a/b`. -/
def fsRelFast : FS := mkFS
  [("/r/a/b", fileStat)]
  [("/r/x", fileStat), ("/r/y", fileStat)]
  [("/r", ["x", "y"])]
  []
  []
  (by decide) (by decide)

/-- Walker with relative file pattern `a/b`, a cap of one result, and a
fuzzy matcher that passes everything. -/
def wCap : Walker :=
  mkWalker ⟨some "a/b", fun _ _ => false, none, some 1, fun _ _ => true⟩

/-- Walker with the separator-free file pattern `readme`. -/
def wExact : Walker :=
  mkWalker ⟨some "readme", fun _ _ => false, none, none, fun _ _ => true⟩

/-- Root `/r` holding exactly the file named `readme`. -/
def fsExact : FS := mkFS
  []
  [("/r/readme", fileStat)]
  [("/r", ["readme"])]
  []
  []
  (by decide) (by decide)

/-- An empty filesystem. -/
def fsEmpty : FS := mkFS [] [] [] [] [] (by decide) (by decide)

/-- Walker with no pattern and a cap of one result. -/
def wCapOnly : Walker :=
  mkWalker ⟨none, fun _ _ => false, none, some 1, fun _ _ => true⟩

/-- A filesystem holding the absolute file `/p/file.txt`. -/
def fsAbs : FS := mkFS
  [("/p/file.txt", fileStat)]
  []
  [("/r", ["z"])]
  []
  []
  (by decide) (by decide)

/-- Walker whose file pattern is the absolute path `/p/file.txt`. -/
def wAbs : Walker :=
  mkWalker ⟨some "/p/file.txt", fun _ _ => false, none, none,
    fun _ _ => true⟩

/-- A state in which cancellation has been observed. -/
def canceledState : WalkState := { initState with isCanceled := true }

/-- Walker whose exclude pattern matches the relative path `sub/skip`. -/
def wExclude : Walker :=
  mkWalker ⟨none, fun p _ => p = "sub/skip", none, none, fun _ _ => true⟩

/-! ## The claims -/

/-- C1 (counterexample): with `maxResults = 1`, a search whose relative
fast path fires delivers two results to `onResult` — the claim's "at most N
results are delivered" is false as stated, because per-root relative
fast-path emissions are not counted against the cap. -/
theorem c1_counterexample :
    wCap.maxResults = some 1 ∧
    (walk fsRelFast wCap 1 ["/r"] [] initState).state.results.length = 2 :=
  ⟨rfl, rfl⟩

/-- C1 (amended): for `maxResults = N > 0`, at most N results are delivered
through the file-match test (`matchFile`); once more than N candidates have
passed the file-match and include tests (`resultCount > N`), `limitHit` is
set, the boundary-crossing passing candidate itself is not delivered, and
`onDone` reports limit-hit = true.  Fast-path emissions are exempt from the
cap. -/
theorem c1_amended_cap (fs : FS) (w : Walker) (N fuel : Nat)
    (roots extras : List String)
    (hN : w.maxResults = some N) (hNpos : 0 < N) :
    matchedCount (walk fs w fuel roots extras initState).state.results ≤ N ∧
    ((walk fs w fuel roots extras initState).state.resultCount > N →
      (walk fs w fuel roots extras initState).state.isLimitHit = true ∧
      (walk fs w fuel roots extras initState).limitHit = true) := by
  have h := @pres_walk fs w _ (presHyp_cap w N hN hNpos) fuel roots extras
    initState ⟨le_refl _, Nat.zero_le _, fun _ => Nat.zero_le _⟩
  obtain ⟨h1, h2, h3⟩ := h
  refine ⟨h2, fun hgt => ?_⟩
  have hlim : (walk fs w fuel roots extras initState).state.isLimitHit
      = true := by
    cases hb : (walk fs w fuel roots extras initState).state.isLimitHit with
    | false => exact absurd (h3 hb) (by omega)
    | true => rfl
  exact ⟨hlim, by rw [walk_limitHit_eq]; exact hlim⟩

/-- C1 witness: the amended cap at a concrete search with `maxResults = 1`
where two candidates pass the tests. -/
theorem c1_amended_cap_witness :
    matchedCount (walk fsRelFast wCap 1 ["/r"] [] initState).state.results
        ≤ 1 ∧
    (walk fsRelFast wCap 1 ["/r"] [] initState).state.isLimitHit = true ∧
    (walk fsRelFast wCap 1 ["/r"] [] initState).limitHit = true := by
  obtain ⟨h1, h2⟩ :=
    c1_amended_cap fsRelFast wCap 1 1 ["/r"] [] rfl (by decide)
  exact ⟨h1, h2 (by decide)⟩

/-- C2 (counterexample): "a given absolute real (symlink-resolved)
directory path is recursed into at most once" is false on the code.  On
`fsAlias` (root `/r` with real subdirectory `sub` and symlink
`loop → /r`), the paths `/r/sub` and `/r/loop/sub` both canonicalize to the
real directory `/r/sub`, yet the walk `readdir`s each of them once — the
same real directory is entered twice via two symlinked paths, because
`realPathIfNeeded` canonicalizes only entries that are themselves
symlinks. -/
theorem c2_counterexample :
    fsAlias.realpath "/r/sub" = some "/r/sub" ∧
    fsAlias.realpath "/r/loop/sub" = some "/r/sub" ∧
    (walk fsAlias wPlain 5 ["/r"] [] initState).state.trace.count
      (FSOp.readdir "/r/sub") = 1 ∧
    (walk fsAlias wPlain 5 ["/r"] [] initState).state.trace.count
      (FSOp.readdir "/r/loop/sub") = 1 ∧
    "/r/sub" ∈ (walk fsAlias wPlain 5 ["/r"] [] initState).state.walkedPaths ∧
    "/r/loop/sub" ∈
      (walk fsAlias wPlain 5 ["/r"] [] initState).state.walkedPaths :=
  ⟨rfl, rfl, by decide, by decide, by decide, by decide⟩

/-- C2 (amended): each walked path is entered at most once per search (the
visited set never acquires a duplicate), and the walk terminates even in
the presence of symlink cycles — any two fuel bounds above the
unvisited-real-directory count give the same result — because every cycle
passes through a symlink entry, whose resolved real path is deduplicated.
A real directory reachable both directly and beneath a symlinked ancestor
is however entered once per distinct unresolved path (the
counterexample). -/
theorem c2_cycle_safety (fs : FS) (w : Walker) (fuel₁ fuel₂ : Nat)
    (roots extras : List String) (s : WalkState)
    (hnd : s.walkedPaths.Nodup)
    (h1 : unvisited fs s.walkedPaths < fuel₁)
    (h2 : unvisited fs s.walkedPaths < fuel₂) :
    (walk fs w fuel₁ roots extras s).state.walkedPaths.Nodup ∧
      walk fs w fuel₁ roots extras s = walk fs w fuel₂ roots extras s :=
  ⟨pres_walk (presHyp_walked w List.Nodup
      (fun wk r hr h => List.nodup_cons.mpr ⟨hr, h⟩)) fuel₁ roots extras hnd,
    walk_fuel_congr fuel₁ fuel₂ roots extras h1 h2⟩

/-- C2 witness: the symlink-cycle filesystem (`/r/loop → /r`): the walk
computes, enters `/r` exactly once, and is fuel-stable. -/
theorem c2_cycle_safety_witness :
    (walk fsCycle wPlain 2 ["/r"] [] initState).state.walkedPaths.Nodup ∧
      walk fsCycle wPlain 2 ["/r"] [] initState =
        walk fsCycle wPlain 3 ["/r"] [] initState :=
  c2_cycle_safety fsCycle wPlain 2 3 ["/r"] [] initState (by decide)
    (by decide) (by decide)

/-- C3: for a truthy absolute `filePattern` naming an existing
non-directory file, the walk emits exactly that one result and completes
immediately: the final state shows a single emission, a single filesystem
operation (the `stat` of the pattern), and untouched counters — no root is
walked and no extra file is considered. -/
theorem c3_absolute_pattern_sole_result (fs : FS) (w : Walker) (fuel : Nat)
    (roots extras : List String) (s : WalkState) (fp : String) (st : LStat)
    (hfp : w.filePattern = some fp) (hne : fp ≠ "")
    (habs : isAbsolutePath fp = true)
    (hst : fs.stat fp = some st) (hdir : st.isDirectory = false)
    (hc : s.isCanceled = false) :
    walk fs w fuel roots extras s =
      ⟨{ s with trace := s.trace ++ [.stat fp],
                results := s.results ++ [⟨fp, .absoluteFastPath⟩] },
        none, s.isLimitHit⟩ :=
  walk_absolute_fast_path fs w fuel roots extras s fp st hfp hne habs hst
    hdir hc

/-- C3 witness: searching for the absolute pattern `/p/file.txt` over a
root and an extra file. -/
theorem c3_absolute_pattern_sole_result_witness :
    walk fsAbs wAbs 1 ["/r"] ["/e"] initState =
      ⟨{ initState with
          trace := initState.trace ++ [.stat "/p/file.txt"],
          results := initState.results ++
            [⟨"/p/file.txt", .absoluteFastPath⟩] },
        none, initState.isLimitHit⟩ :=
  c3_absolute_pattern_sole_result fsAbs wAbs 1 ["/r"] ["/e"] initState
    "/p/file.txt" fileStat rfl (by decide) (by decide) rfl rfl rfl

/-- C4 (counterexample): "delivered exactly once" is false as stated, two
ways.  With the same root listed twice, the regular file `/r/f` (not under
any previously-visited real directory — roots themselves are never marked
visited) is delivered twice.  And on `fsAlias`, the real directory `/r/sub`
is visited first, yet its file `g` is delivered again as `/r/loop/sub/g`
through the symlinked ancestor — a file under a previously-visited real
directory is re-delivered, because the code keys the visited set by the
unresolved path of non-symlink directories. -/
theorem c4_counterexample :
    (fsOneFile.lstat "/r/f" = some fileStat ∧
      ((walk fsOneFile wPlain 1 ["/r", "/r"] [] initState).state.results.map
        Emit.path).count "/r/f" = 2) ∧
    (fsAlias.realpath "/r/loop/sub" = some "/r/sub" ∧
      fsAlias.realpath "/r/sub" = some "/r/sub" ∧
      (walk fsAlias wPlain 5 ["/r"] [] initState).state.results.map Emit.path
        = ["/r/sub/g", "/r/loop/sub/g"]) :=
  ⟨⟨rfl, rfl⟩, rfl, rfl, rfl⟩

/-- C4 (amended): for a search over a single root with no extra files, no
file pattern and no include/exclude patterns (and no cancellation or
limit), on a filesystem with no symlink aliasing of directories (every
non-symlink directory path is canonical, `FSCanon`), the walk's deliveries
are exactly the spec's reference enumeration of regular files reachable
under the root with a canonicalized visited set, and — when those reachable
paths are pairwise distinct — each is delivered exactly once.  With
duplicated roots, or when a real directory is also reachable beneath a
symlinked ancestor, files are delivered more than once. -/
theorem c4_amended_exactly_once (fs : FS) (w : Walker) (fuel : Nat)
    (root : String) (hw : plainConfig w) (hcanon : FSCanon fs)
    (hnd : (specReachableFiles fs fuel root).Nodup) :
    ((walk fs w fuel [root] [] initState).state.results.map Emit.path =
      specReachableFiles fs fuel root) ∧
    ∀ p ∈ specReachableFiles fs fuel root,
      ((walk fs w fuel [root] [] initState).state.results.map
        Emit.path).count p = 1 := by
  have hmap : (walk fs w fuel [root] [] initState).state.results.map
      Emit.path = specReachableFiles fs fuel root := by
    rw [plain_walk_singleRoot hw hcanon fuel root, List.map_map]
    have hid : (Emit.path ∘ fun p => Emit.mk p .matched) = id := rfl
    rw [hid, List.map_id]
  exact ⟨hmap, fun p hp => by
    rw [hmap]
    exact List.count_eq_one_of_mem hnd hp⟩

/-- C4 witness: the symlink-cycle filesystem, whose two reachable regular
files are delivered exactly once each. -/
theorem c4_amended_exactly_once_witness :
    ((walk fsCycle wPlain 5 ["/r"] [] initState).state.results.map Emit.path
      = specReachableFiles fsCycle 5 "/r") ∧
    ∀ p ∈ specReachableFiles fsCycle 5 "/r",
      ((walk fsCycle wPlain 5 ["/r"] [] initState).state.results.map
        Emit.path).count p = 1 :=
  c4_amended_exactly_once fsCycle wPlain 5 "/r" wPlain_plain fsCycle_canon
    (by decide)

/-- C5: at every recursion point that observes `canceled` or `limitHit`
true — the per-entry task, the post-lstat stage, the post-realpath stage,
the post-readdir stage, the per-root post-readdir stage and the per-root
pre-walk stage — the branch returns its input state unchanged with no
error: no further filesystem I/O (the trace is unchanged), no further
delivery (the results are unchanged), no recursion. -/
theorem c5_short_circuit (fs : FS) (w : Walker) (recur : Recur) (fuel : Nat)
    (dir relParent file current relPath root : String)
    (siblings files : List String) (lres : Option LStat)
    (rres : Option String) (cres dres : Option (List String))
    (m : Option String) (s : WalkState)
    (hflag : (s.isCanceled || s.isLimitHit) = true) :
    walkEntry fs w recur dir relParent file siblings s = (s, none) ∧
    walkEntryAfterLstat fs w recur file current relPath lres s = (s, none) ∧
    dirAfterRealpath fs w recur current relPath rres s = (s, none) ∧
    dirAfterReaddir fs w recur current relPath cres s = (s, none) ∧
    walkRootAfterReaddir fs w fuel root dres s = (s, none) ∧
    walkRootAfterRelCheck fs w fuel root files m s = (s, none) := by
  refine ⟨?_, ?_, ?_, ?_, ?_, ?_⟩
  · unfold walkEntry
    simp [hflag]
  · unfold walkEntryAfterLstat
    cases lres with
    | none => rfl
    | some l => simp [hflag]
  · unfold dirAfterRealpath
    cases rres with
    | none => rfl
    | some r => simp [hflag]
  · unfold dirAfterReaddir
    cases cres with
    | none => rfl
    | some children => simp [hflag]
  · unfold walkRootAfterReaddir
    cases dres with
    | none => rfl
    | some fi => simp [hflag]
  · unfold walkRootAfterRelCheck
    simp [hflag]

/-- C5 witness: a canceled state short-circuits every stage on a concrete
instance. -/
theorem c5_short_circuit_witness :
    walkEntry fsEmpty wPlain (doWalk fsEmpty wPlain 0) "/d" "" "f" ["f"]
        canceledState = (canceledState, none) ∧
    walkEntryAfterLstat fsEmpty wPlain (doWalk fsEmpty wPlain 0) "f" "/d/f"
        "f" (some fileStat) canceledState = (canceledState, none) ∧
    dirAfterRealpath fsEmpty wPlain (doWalk fsEmpty wPlain 0) "/d/f" "f"
        (some "/d/f") canceledState = (canceledState, none) ∧
    dirAfterReaddir fsEmpty wPlain (doWalk fsEmpty wPlain 0) "/d/f" "f"
        (some []) canceledState = (canceledState, none) ∧
    walkRootAfterReaddir fsEmpty wPlain 1 "/d" (some []) canceledState =
        (canceledState, none) ∧
    walkRootAfterRelCheck fsEmpty wPlain 1 "/d" [] none canceledState =
        (canceledState, none) :=
  c5_short_circuit fsEmpty wPlain (doWalk fsEmpty wPlain 0) 1 "/d" "" "f"
    "/d/f" "f" "/d" ["f"] [] (some fileStat) (some "/d/f") (some [])
    (some []) none canceledState (by decide)

/-- C6: an entry whose name equals the literal configured `filePattern`
string has the exclude pattern evaluated with an empty sibling list, any
other entry with the full sibling list of the current directory; an entry
matching the exclude pattern under that evaluation is skipped entirely
(state unchanged: no emission, no I/O, no recursion). -/
theorem c6_sibling_aware_exclude (fs : FS) (w : Walker) (recur : Recur)
    (dir relParent file : String) (siblings : List String) (s : WalkState)
    (hc : s.isCanceled = false) (hl : s.isLimitHit = false) :
    (w.configFilePattern = some file →
      w.excludeMatch (trimSlashes (relParent ++ "/" ++ file)) [] = true →
      walkEntry fs w recur dir relParent file siblings s = (s, none)) ∧
    (¬(w.configFilePattern = some file) →
      w.excludeMatch (trimSlashes (relParent ++ "/" ++ file)) siblings
          = true →
      walkEntry fs w recur dir relParent file siblings s = (s, none)) := by
  constructor
  · intro heq hexc
    unfold walkEntry
    simp [hc, hl, heq, hexc]
  · intro hne hexc
    unfold walkEntry
    simp [hc, hl, hne, hexc]

/-- C6 witness: an entry excluded (with the full sibling list) is skipped
with the state unchanged. -/
theorem c6_sibling_aware_exclude_witness :
    walkEntry fsEmpty wExclude (doWalk fsEmpty wExclude 0) "/d" "sub" "skip"
      ["skip", "other"] initState = (initState, none) :=
  (c6_sibling_aware_exclude fsEmpty wExclude (doWalk fsEmpty wExclude 0)
    "/d" "sub" "skip" ["skip", "other"] initState rfl rfl).2
    (by decide) (by decide)

/-- C7 (code bug): with the separator-free pattern `readme` and a root
containing exactly the file `readme`, `doWalk` skips the file because its
relative path equals `this.filePattern`, expecting
`checkFilePatternRelativeMatch` to deliver it — but that fast path requires
`searchInPath` (a pattern containing a separator), so the file is never
delivered at all, contradicting the code's own comment and the spec. -/
theorem c7_exact_name_dropped :
    fsExact.readdir "/r" = some ["readme"] ∧
    fsExact.lstat "/r/readme" = some fileStat ∧
    wExact.configFilePattern = some "readme" ∧
    wExact.searchInPath = false ∧
    (walk fsExact wExact 1 ["/r"] [] initState).state.results = [] :=
  ⟨rfl, rfl, rfl, rfl, rfl⟩

/-- C8: no branch error cancels sibling branches — every per-root branch
settles with a null error (failures are swallowed as skips), the final
callback carries exactly the first non-null collected error (hence none,
as none is ever collected) together with the final limit-hit flag. -/
theorem c8_error_collection (fs : FS) (w : Walker) (fuel : Nat)
    (roots extras : List String) (s : WalkState) :
    (∀ e ∈ (walkRoots fs w fuel roots s).2, e = none) ∧
    (walk fs w fuel roots extras s).error = none ∧
    ((walkRoots fs w fuel roots (walkExtras w extras
        (checkFilePatternAbsoluteMatch fs w s).2)).2.filterMap id).head? =
      (walk fs w fuel roots extras s).error ∧
    (walk fs w fuel roots extras s).limitHit =
      (walk fs w fuel roots extras s).state.isLimitHit := by
  refine ⟨@walkRoots_err fs w fuel roots s, walk_err fuel roots extras s,
    ?_, walk_limitHit_eq fuel roots extras s⟩
  rw [walk_err]
  have hnil : (walkRoots fs w fuel roots (walkExtras w extras
      (checkFilePatternAbsoluteMatch fs w s).2)).2.filterMap id = [] := by
    rw [List.filterMap_eq_nil_iff]
    intro e he
    exact @walkRoots_err fs w fuel roots _ e he
  rw [hnil]
  rfl

/-- C9 (counterexample): with `maxResults = 1` and two passing extra files,
`resultCount` reaches 2 while only one result was delivered — `resultCount`
does not equal the number of delivered results. -/
theorem c9_counterexample :
    (walk fsEmpty wCapOnly 1 [] ["/e1", "/e2"] initState).state.resultCount
        = 2 ∧
    (walk fsEmpty wCapOnly 1 [] ["/e1", "/e2"] initState).state.results.length
        = 1 :=
  ⟨rfl, rfl⟩

/-- C9 (amended): `resultCount` is monotonically non-decreasing, and it
counts the candidates that passed the file-match and include tests: as long
as the limit cannot be hit (`maxResults` unset) it equals exactly the
number of results delivered through `matchFile`; once the limit is hit it
exceeds the number delivered, and fast-path deliveries are never counted. -/
theorem c9_amended_resultCount (fs : FS) (w : Walker) (fuel : Nat)
    (roots extras : List String) (s : WalkState) :
    (s.resultCount ≤ (walk fs w fuel roots extras s).state.resultCount) ∧
    (w.maxResults = none →
      (walk fs w fuel roots extras initState).state.resultCount =
        matchedCount (walk fs w fuel roots extras initState).state.results)
    := by
  constructor
  · exact pres_walk (presHyp_resultCount_ge w s.resultCount) fuel roots
      extras (le_refl _)
  · intro hmax
    exact (pres_walk (presHyp_count_eq w hmax) fuel roots extras
      ⟨rfl, rfl⟩).2

/-- C9 witness: the amended statement at the symlink-cycle search. -/
theorem c9_amended_resultCount_witness :
    (initState.resultCount ≤
      (walk fsCycle wPlain 3 ["/r"] [] initState).state.resultCount) ∧
    (walk fsCycle wPlain 3 ["/r"] [] initState).state.resultCount =
      matchedCount (walk fsCycle wPlain 3 ["/r"] [] initState).state.results
    :=
  ⟨(c9_amended_resultCount fsCycle wPlain 3 ["/r"] [] initState).1,
   (c9_amended_resultCount fsCycle wPlain 3 ["/r"] [] initState).2 rfl⟩

/-- C10: fast-path emissions bypass `matchFile` entirely — for any walker
(any `maxResults`, any include matcher, any pattern), the per-root relative
fast-path emission only appends a `relativeFastPath`-tagged result before
the subtree walk, leaving `resultCount` and `isLimitHit` to the walk;
`matchFile` is the only emitter of `matched`-tagged results, incrementing
`resultCount` exactly when it delivers; and whenever the absolute-literal
fast path applies (truthy absolute pattern naming an existing
non-directory), it delivers without touching `resultCount` or `isLimitHit`,
regardless of `maxResults`. -/
theorem c10_fast_path_frame (fs : FS) (w : Walker) (fuel : Nat)
    (roots extras files : List String) (root p : String) (s : WalkState)
    (hc : s.isCanceled = false) (hl : s.isLimitHit = false) :
    (walkRootAfterRelCheck fs w fuel root files (some p) s =
      doWalk fs w fuel root "" files
        { s with results := s.results ++ [⟨p, .relativeFastPath⟩] }) ∧
    (∀ b a rel, (matchFile w s b a rel).results = s.results ∨
      ((matchFile w s b a rel).results = s.results ++ [⟨a, .matched⟩] ∧
       (matchFile w s b a rel).resultCount = s.resultCount + 1)) ∧
    (∀ fp st, w.filePattern = some fp → fp ≠ "" →
      isAbsolutePath fp = true → fs.stat fp = some st →
      st.isDirectory = false →
      (walk fs w fuel roots extras s).state.resultCount = s.resultCount ∧
      (walk fs w fuel roots extras s).state.isLimitHit = s.isLimitHit ∧
      (walk fs w fuel roots extras s).state.results =
        s.results ++ [⟨fp, .absoluteFastPath⟩]) := by
  refine ⟨?_, ?_, ?_⟩
  · unfold walkRootAfterRelCheck
    simp [hc, hl]
  · intro b a rel
    unfold matchFile
    split
    · dsimp only
      split
      · left
        rfl
      · right
        exact ⟨rfl, rfl⟩
    · left
      rfl
  · intro fp st hfp hne habs hst hdir
    rw [walk_absolute_fast_path fs w fuel roots extras s fp st hfp hne habs
      hst hdir hc]
    exact ⟨rfl, rfl, rfl⟩

/-- C10 witness: the relative fast-path frame condition at a search whose
relative fast path genuinely fires (`wCap` on `fsRelFast` produces the
match `/r/a/b`), and the absolute fast-path frame condition at `wAbs` on
`fsAbs`. -/
theorem c10_fast_path_frame_witness :
    ((checkFilePatternRelativeMatch fsRelFast wCap "/r" initState).1 =
        some "/r/a/b") ∧
    (walkRootAfterRelCheck fsRelFast wCap 1 "/r" ["x", "y"]
        (some "/r/a/b") initState =
      doWalk fsRelFast wCap 1 "/r" "" ["x", "y"]
        { initState with
          results := initState.results ++ [⟨"/r/a/b", .relativeFastPath⟩] }) ∧
    ((walk fsAbs wAbs 1 ["/r"] [] initState).state.resultCount =
        initState.resultCount ∧
      (walk fsAbs wAbs 1 ["/r"] [] initState).state.results =
        initState.results ++ [⟨"/p/file.txt", .absoluteFastPath⟩]) := by
  obtain ⟨hrel, hmf, habsf⟩ :=
    c10_fast_path_frame fsRelFast wCap 1 [] [] ["x", "y"] "/r" "/r/a/b"
      initState rfl rfl
  obtain ⟨-, -, habsf2⟩ :=
    c10_fast_path_frame fsAbs wAbs 1 ["/r"] [] [] "" "" initState rfl rfl
  obtain ⟨h1, h2, h3⟩ :=
    habsf2 "/p/file.txt" fileStat rfl (by decide) (by decide) rfl rfl
  exact ⟨by decide, hrel, h1, h3⟩

end FileSearch
